import Mathlib

/-!
Verification development for the address-derivation module
(`src/functions/addresses.py`).

Bytes are modelled as `List Nat` (each entry a byte value `< 256`), 32-bit
words as `Nat` reduced modulo `2 ^ 32`.  The digest primitives (`hash256`,
`hash160` from `functions/hashfunctions.py`, and `hashlib.sha256`) and the
`base58` library are external to `src/`; they are modelled from the spec as
the standard SHA-256, RIPEMD-160 and Bitcoin base-58 algorithms.  The
`bech32` encoder is kept abstract: the segwit builders are parameterized by
the encoding function, which lets the theorems speak about the arguments
the builders pass to it.
-/

/-- Reduce a `Nat` to a 32-bit word. -/
def w32 (x : Nat) : Nat := x % 4294967296

/-- Right rotation of a 32-bit word. -/
def rotr32 (r x : Nat) : Nat := w32 (x / 2 ^ r + x * 2 ^ (32 - r))

/-- Left rotation of a 32-bit word. -/
def rotl32 (r x : Nat) : Nat := w32 (x * 2 ^ r + x / 2 ^ (32 - r))

/-- Right shift of a 32-bit word. -/
def shr32 (r x : Nat) : Nat := x / 2 ^ r

/-- Bitwise complement of a 32-bit word. -/
def not32 (x : Nat) : Nat := x ^^^ 4294967295

/-- Fuel-based chunking of a byte list into blocks of `n` bytes
(structural recursion so that the kernel can evaluate it). -/
def chunksAux (n : Nat) : Nat → List Nat → List (List Nat)
  | 0, _ => []
  | _ + 1, [] => []
  | fuel + 1, a :: rest => (a :: rest).take n :: chunksAux n fuel ((a :: rest).drop n)

/-- Split a byte list into consecutive blocks of `n` bytes. -/
def chunks (n : Nat) (l : List Nat) : List (List Nat) := chunksAux n l.length l

/-- Iterate a function `n` times. -/
def iterN {α : Type} (f : α → α) : Nat → α → α
  | 0, a => a
  | n + 1, a => iterN f n (f a)

/-- Big-endian value of a byte list. -/
def bytesToNat (l : List Nat) : Nat := l.foldl (fun a d => a * 256 + d) 0

/-- Little-endian value of a byte list. -/
def bytesToNatLE (l : List Nat) : Nat := l.foldr (fun d a => d + a * 256) 0

/-- `n` as exactly `k` big-endian bytes (low-order bytes of `n`). -/
def natToBytesBEFixed (k n : Nat) : List Nat :=
  (List.range k).map (fun i => n / 2 ^ (8 * (k - 1 - i)) % 256)

/-- `n` as exactly `k` little-endian bytes (low-order bytes of `n`). -/
def natToBytesLEFixed (k n : Nat) : List Nat :=
  (List.range k).map (fun i => n / 2 ^ (8 * i) % 256)

/-- Fuel-based little-endian base-`b` digit extraction (structural recursion,
so that the kernel can evaluate it; agrees with `Nat.digits` for `2 ≤ b`
whenever the fuel is at least `n`). -/
def natDigitsLEAux (b : Nat) : Nat → Nat → List Nat
  | 0, _ => []
  | _ + 1, 0 => []
  | fuel + 1, n + 1 => (n + 1) % b :: natDigitsLEAux b fuel ((n + 1) / b)

/-- Little-endian base-`b` digits of `n`. -/
def natDigitsLE (b n : Nat) : List Nat := natDigitsLEAux b n n

/-- A 32-bit word as four big-endian bytes. -/
def wordToBytesBE (x : Nat) : List Nat :=
  [x / 16777216 % 256, x / 65536 % 256, x / 256 % 256, x % 256]

/-- A 32-bit word as four little-endian bytes. -/
def wordToBytesLE (x : Nat) : List Nat :=
  [x % 256, x / 256 % 256, x / 65536 % 256, x / 16777216 % 256]

/-- A 64-byte block as sixteen big-endian 32-bit words. -/
def bytesToWordsBE (block : List Nat) : List Nat := (chunks 4 block).map bytesToNat

/-- A 64-byte block as sixteen little-endian 32-bit words. -/
def bytesToWordsLE (block : List Nat) : List Nat := (chunks 4 block).map bytesToNatLE

/-! ### SHA-256 (FIPS 180-4), modelled from the spec's DigestPipeline -/

/-- The SHA-256 round constants. -/
def sha256K : List Nat :=
  [1116352408, 1899447441, 3049323471, 3921009573, 961987163, 1508970993,
   2453635748, 2870763221, 3624381080, 310598401, 607225278, 1426881987,
   1925078388, 2162078206, 2614888103, 3248222580, 3835390401, 4022224774,
   264347078, 604807628, 770255983, 1249150122, 1555081692, 1996064986,
   2554220882, 2821834349, 2952996808, 3210313671, 3336571891, 3584528711,
   113926993, 338241895, 666307205, 773529912, 1294757372, 1396182291,
   1695183700, 1986661051, 2177026350, 2456956037, 2730485921, 2820302411,
   3259730800, 3345764771, 3516065817, 3600352804, 4094571909, 275423344,
   430227734, 506948616, 659060556, 883997877, 958139571, 1322822218,
   1537002063, 1747873779, 1955562222, 2024104815, 2227730452, 2361852424,
   2428436474, 2756734187, 3204031479, 3329325298]

/-- Running state of a SHA-256 computation: eight 32-bit words. -/
structure Hash8 where
  a : Nat
  b : Nat
  c : Nat
  d : Nat
  e : Nat
  f : Nat
  g : Nat
  hh : Nat

/-- The SHA-256 initial hash value. -/
def sha256H0 : Hash8 :=
  ⟨1779033703, 3144134277, 1013904242, 2773480762,
   1359893119, 2600822924, 528734635, 1541459225⟩

/-- SHA-256 / RIPEMD-160 padding-zeros count for a message of `len` bytes:
the unique `k < 64` with `len + 1 + k ≡ 56 [MOD 64]`. -/
def padZeros (len : Nat) : Nat := (119 - len % 64) % 64

/-- SHA-256 padding: `0x80`, zeros, then the bit length as 8 big-endian bytes. -/
def sha256Pad (m : List Nat) : List Nat :=
  m ++ [0x80] ++ List.replicate (padZeros m.length) 0 ++ natToBytesBEFixed 8 (8 * m.length)

/-- One step of the SHA-256 message-schedule extension: append the next word. -/
def sha256ExtendStep (w : List Nat) : List Nat :=
  let i := w.length
  let x15 := w.getD (i - 15) 0
  let x2 := w.getD (i - 2) 0
  let s0 := rotr32 7 x15 ^^^ rotr32 18 x15 ^^^ shr32 3 x15
  let s1 := rotr32 17 x2 ^^^ rotr32 19 x2 ^^^ shr32 10 x2
  w ++ [w32 (w.getD (i - 16) 0 + s0 + w.getD (i - 7) 0 + s1)]

/-- One SHA-256 round, consuming a `(Kᵢ, Wᵢ)` pair. -/
def sha256Round (s : Hash8) (kw : Nat × Nat) : Hash8 :=
  let S1 := rotr32 6 s.e ^^^ rotr32 11 s.e ^^^ rotr32 25 s.e
  let ch := (s.e &&& s.f) ^^^ (not32 s.e &&& s.g)
  let temp1 := w32 (s.hh + S1 + ch + kw.1 + kw.2)
  let S0 := rotr32 2 s.a ^^^ rotr32 13 s.a ^^^ rotr32 22 s.a
  let maj := (s.a &&& s.b) ^^^ (s.a &&& s.c) ^^^ (s.b &&& s.c)
  let temp2 := w32 (S0 + maj)
  ⟨w32 (temp1 + temp2), s.a, s.b, s.c, w32 (s.d + temp1), s.e, s.f, s.g⟩

/-- SHA-256 compression of one 64-byte block. -/
def sha256Compress (hs : Hash8) (block : List Nat) : Hash8 :=
  let w := iterN sha256ExtendStep 48 (bytesToWordsBE block)
  let t := (sha256K.zip w).foldl sha256Round hs
  ⟨w32 (hs.a + t.a), w32 (hs.b + t.b), w32 (hs.c + t.c), w32 (hs.d + t.d),
   w32 (hs.e + t.e), w32 (hs.f + t.f), w32 (hs.g + t.g), w32 (hs.hh + t.hh)⟩

/-- Modelled from the spec: the external digest primitive SHA-256
(`hashlib.sha256(...).digest()`), one of the two passes of the
DigestPipeline. -/
def sha256 (m : List Nat) : List Nat :=
  let hf := (chunks 64 (sha256Pad m)).foldl sha256Compress sha256H0
  wordToBytesBE hf.a ++ wordToBytesBE hf.b ++ wordToBytesBE hf.c ++ wordToBytesBE hf.d ++
    wordToBytesBE hf.e ++ wordToBytesBE hf.f ++ wordToBytesBE hf.g ++ wordToBytesBE hf.hh

/-! ### RIPEMD-160, modelled from the spec's DigestPipeline -/

/-- Running state of a RIPEMD-160 computation: five 32-bit words. -/
structure Hash5 where
  a : Nat
  b : Nat
  c : Nat
  d : Nat
  e : Nat

/-- The RIPEMD-160 initial hash value. -/
def ripemdH0 : Hash5 := ⟨0x67452301, 0xefcdab89, 0x98badcfe, 0x10325476, 0xc3d2e1f0⟩

/-- The RIPEMD-160 nonlinear function for round `j` of the left line. -/
def ripemdF (j x y z : Nat) : Nat :=
  if j < 16 then x ^^^ y ^^^ z
  else if j < 32 then (x &&& y) ||| (not32 x &&& z)
  else if j < 48 then (x ||| not32 y) ^^^ z
  else if j < 64 then (x &&& z) ||| (y &&& not32 z)
  else x ^^^ (y ||| not32 z)

/-- The RIPEMD-160 round constants of the left line. -/
def ripemdK (j : Nat) : Nat :=
  if j < 16 then 0 else if j < 32 then 0x5a827999 else if j < 48 then 0x6ed9eba1
  else if j < 64 then 0x8f1bbcdc else 0xa953fd4e

/-- The RIPEMD-160 round constants of the right line. -/
def ripemdKR (j : Nat) : Nat :=
  if j < 16 then 0x50a28be6 else if j < 32 then 0x5c4dd124 else if j < 48 then 0x6d703ef3
  else if j < 64 then 0x7a6d76e9 else 0

/-- Message-word selection order of the left line. -/
def ripemdRL : List Nat :=
  [0, 1, 2, 3, 4, 5, 6, 7, 8, 9, 10, 11, 12, 13, 14, 15,
   7, 4, 13, 1, 10, 6, 15, 3, 12, 0, 9, 5, 2, 14, 11, 8,
   3, 10, 14, 4, 9, 15, 8, 1, 2, 7, 0, 6, 13, 11, 5, 12,
   1, 9, 11, 10, 0, 8, 12, 4, 13, 3, 7, 15, 14, 5, 6, 2,
   4, 0, 5, 9, 7, 12, 2, 10, 14, 1, 3, 8, 11, 6, 15, 13]

/-- Message-word selection order of the right line. -/
def ripemdRR : List Nat :=
  [5, 14, 7, 0, 9, 2, 11, 4, 13, 6, 15, 8, 1, 10, 3, 12,
   6, 11, 3, 7, 0, 13, 5, 10, 14, 15, 8, 12, 4, 9, 1, 2,
   15, 5, 1, 3, 7, 14, 6, 9, 11, 8, 12, 2, 10, 0, 4, 13,
   8, 6, 4, 1, 3, 11, 15, 0, 5, 12, 2, 13, 9, 7, 10, 14,
   12, 15, 10, 4, 1, 5, 8, 7, 6, 2, 13, 14, 0, 3, 9, 11]

/-- Rotation amounts of the left line. -/
def ripemdSL : List Nat :=
  [11, 14, 15, 12, 5, 8, 7, 9, 11, 13, 14, 15, 6, 7, 9, 8,
   7, 6, 8, 13, 11, 9, 7, 15, 7, 12, 15, 9, 11, 7, 13, 12,
   11, 13, 6, 7, 14, 9, 13, 15, 14, 8, 13, 6, 5, 12, 7, 5,
   11, 12, 14, 15, 14, 15, 9, 8, 9, 14, 5, 6, 8, 6, 5, 12,
   9, 15, 5, 11, 6, 8, 13, 12, 5, 12, 13, 14, 11, 8, 5, 6]

/-- Rotation amounts of the right line. -/
def ripemdSR : List Nat :=
  [8, 9, 9, 11, 13, 15, 15, 5, 7, 7, 8, 11, 14, 14, 12, 6,
   9, 13, 15, 7, 12, 8, 9, 11, 7, 7, 12, 7, 6, 15, 13, 11,
   9, 7, 15, 11, 8, 6, 6, 14, 12, 13, 5, 14, 13, 13, 7, 5,
   15, 5, 8, 11, 14, 14, 6, 14, 6, 9, 12, 9, 12, 5, 15, 8,
   8, 5, 12, 9, 12, 5, 14, 6, 8, 13, 6, 5, 15, 13, 11, 11]

/-- One RIPEMD-160 step of the left line at position `j`. -/
def ripemdStepL (x : List Nat) (s : Hash5) (j : Nat) : Hash5 :=
  let t := w32 (rotl32 (ripemdSL.getD j 0)
    (w32 (s.a + ripemdF j s.b s.c s.d + x.getD (ripemdRL.getD j 0) 0 + ripemdK j)) + s.e)
  ⟨s.e, t, s.b, rotl32 10 s.c, s.d⟩

/-- One RIPEMD-160 step of the right line at position `j`. -/
def ripemdStepR (x : List Nat) (s : Hash5) (j : Nat) : Hash5 :=
  let t := w32 (rotl32 (ripemdSR.getD j 0)
    (w32 (s.a + ripemdF (79 - j) s.b s.c s.d + x.getD (ripemdRR.getD j 0) 0 + ripemdKR j)) + s.e)
  ⟨s.e, t, s.b, rotl32 10 s.c, s.d⟩

/-- RIPEMD-160 compression of one 64-byte block. -/
def ripemdCompress (hs : Hash5) (block : List Nat) : Hash5 :=
  let x := bytesToWordsLE block
  let l := (List.range 80).foldl (ripemdStepL x) hs
  let r := (List.range 80).foldl (ripemdStepR x) hs
  ⟨w32 (hs.b + l.c + r.d), w32 (hs.c + l.d + r.e), w32 (hs.d + l.e + r.a),
   w32 (hs.e + l.a + r.b), w32 (hs.a + l.b + r.c)⟩

/-- RIPEMD-160 padding: like SHA-256 but with a little-endian length. -/
def ripemdPad (m : List Nat) : List Nat :=
  m ++ [0x80] ++ List.replicate (padZeros m.length) 0 ++ natToBytesLEFixed 8 (8 * m.length)

/-- Modelled from the spec: the external digest primitive RIPEMD-160, the
second pass of the hash-then-hash pipeline `hash160`. -/
def ripemd160 (m : List Nat) : List Nat :=
  let hf := (chunks 64 (ripemdPad m)).foldl ripemdCompress ripemdH0
  wordToBytesLE hf.a ++ wordToBytesLE hf.b ++ wordToBytesLE hf.c ++
    wordToBytesLE hf.d ++ wordToBytesLE hf.e

/-! ### Base-58 (the external `base58` library, modelled from the spec:
the standard Bitcoin base-58 scheme with the alphabet of §6 and
leading-zero-byte handling) -/

/-- The standard Bitcoin base-58 alphabet. -/
def b58Alphabet : List Char := "123456789ABCDEFGHJKLMNPQRSTUVWXYZabcdefghijkmnopqrstuvwxyz".toList

/-- The character for base-58 digit `d`. -/
def b58Char (d : Nat) : Char := b58Alphabet.getD d '1'

/-- The base-58 digit value of a character (its index in the alphabet). -/
def b58CharIndex (c : Char) : Nat := b58Alphabet.indexOf c

/-- Modelled from the spec: `base58.b58encode` — count the leading zero
bytes, interpret the rest as a big-endian integer, write it in base 58,
and prepend one alphabet-zero character per leading zero byte. -/
def b58encode (b : List Nat) : String :=
  let nZeros := (b.takeWhile (· = 0)).length
  let digits := (natDigitsLE 58 (bytesToNat b)).reverse
  ⟨List.replicate nZeros '1' ++ digits.map b58Char⟩

/-- Modelled from the spec: `base58.b58decode` — strip the leading
alphabet-zero characters, interpret the rest as a base-58 integer, write it
as big-endian bytes, and prepend one zero byte per stripped character. -/
def b58decode (s : String) : List Nat :=
  let stripped := s.data.dropWhile (· = '1')
  let nZeros := s.data.length - stripped.length
  let acc := stripped.foldl (fun a c => a * 58 + b58CharIndex c) 0
  List.replicate nZeros 0 ++ (natDigitsLE 256 acc).reverse

/-! ### The address module (`src/functions/addresses.py`) -/

/-- `hash256` from `functions/hashfunctions.py`, modelled from the spec:
`double_hash(bytes) -> 32 bytes` — two sequential SHA-256 passes. -/
def hash256 (b : List Nat) : List Nat := sha256 (sha256 b)

/-- `hash160` from `functions/hashfunctions.py`, modelled from the spec:
`hash160(bytes) -> 20 bytes` — SHA-256 then RIPEMD-160. -/
def hash160 (b : List Nat) : List Nat := ripemd160 (sha256 b)

/-- Python `int.from_bytes(b, byteorder="big", signed=True)`. -/
def intFromBytesBESigned (b : List Nat) : Int :=
  if 2 ^ (8 * b.length) ≤ 2 * bytesToNat b then
    (bytesToNat b : Int) - 2 ^ (8 * b.length)
  else bytesToNat b

/-- The compression step of `privkey_to_pubkey` (addresses.py lines 12-18),
acting on the 64-byte uncompressed key supplied by the external `ecdsa`
collaborator: split into x and y coordinates and prepend a parity byte. -/
def compressPubkey (u : List Nat) : List Nat :=
  let x_cor := u.take 32
  let y_cor := u.drop 32
  if intFromBytesBESigned y_cor % 2 = 0 then 0x02 :: x_cor
  else 0x03 :: x_cor

/-- `encode_base58_checksum`: base-58 encoding of the payload with the
first four bytes of its double-SHA-256 appended. -/
def encode_base58_checksum (b : List Nat) : String :=
  b58encode (b ++ (hash256 b).take 4)

/-- `decode_base58`: plain base-58 decoding; no checksum handling. -/
def decode_base58 (s : String) : List Nat := b58decode s

/-- `pk_to_p2pkh`: p2pkh address from a compressed pubkey. -/
def pk_to_p2pkh (compressed : List Nat) (network : String) : String :=
  let pk_hash := hash160 compressed
  if network = "regtest" ∨ network = "testnet" then
    encode_base58_checksum (0x6f :: pk_hash)
  else if network = "mainnet" then
    encode_base58_checksum (0x00 :: pk_hash)
  else "Enter the network: testnet/regtest/mainnet"

/-- `script_to_p2sh`: p2sh base58 address from a redeem script. -/
def script_to_p2sh (redeemScript : List Nat) (network : String) : String :=
  let rs_hash := hash160 redeemScript
  if network = "regtest" ∨ network = "testnet" then
    encode_base58_checksum (0xc4 :: rs_hash)
  else if network = "mainnet" then
    encode_base58_checksum (0x05 :: rs_hash)
  else "Enter the network: tesnet/regtest/mainnet"

/-- `pk_to_p2wpkh`: p2wpkh bech32 address from a compressed pubkey.  The
external `bech32.encode` is the parameter `enc` (human-readable part,
witness version, program).  The source first runs
`if network == "testnet": prefix = 'tb'`, a bare `if` whose assignment is
either overwritten by the following `if`/`elif`/`else` chain or ignored by
its `else` return, so on `"testnet"` control reaches the error return. -/
def pk_to_p2wpkh (enc : String → Int → List Nat → String)
    (compressed : List Nat) (network : String) : String :=
  let pk_hash := hash160 compressed
  let spk := 0x00 :: 0x14 :: pk_hash
  let version : Int := if spk.headI ≠ 0 then (spk.headI : Int) - 0x50 else 0
  let program := spk.drop 2
  if network = "regtest" then enc "bcrt" version program
  else if network = "mainnet" then enc "bc" version program
  else "Enter the network: testnet/regtest/mainnet"

/-- `script_to_p2wsh`: p2wsh bech32 address from a redeem script; same
control-flow structure as `pk_to_p2wpkh` (the bare `if testnet` assignment
is dead), but a single SHA-256 of the script as the program. -/
def script_to_p2wsh (enc : String → Int → List Nat → String)
    (redeemScript : List Nat) (network : String) : String :=
  let script_hash := sha256 redeemScript
  let spk := 0x00 :: 0x20 :: script_hash
  let version : Int := if spk.headI ≠ 0 then (spk.headI : Int) - 0x50 else 0
  let program := spk.drop 2
  if network = "regtest" then enc "bcrt" version program
  else if network = "mainnet" then enc "bc" version program
  else "Enter the network: testnet/regtest/mainnet"

/-- `pk_to_p2sh_p2wpkh`: nested-segwit address — the witness-program bytes
`0x00 0x14 ‖ hash160(pubkey)` (built in the source through a hex-string
round trip) treated as a redeem script and wrapped as p2sh. -/
def pk_to_p2sh_p2wpkh (compressed : List Nat) (network : String) : String :=
  let pk_hash := hash160 compressed
  let redeemScript := 0x00 :: 0x14 :: pk_hash
  let rs_hash := hash160 redeemScript
  if network = "regtest" ∨ network = "testnet" then
    encode_base58_checksum (0xc4 :: rs_hash)
  else if network = "mainnet" then
    encode_base58_checksum (0x05 :: rs_hash)
  else "Enter the network: tesnet/regtest/mainnet"

/-! ### Helper lemmas -/

theorem natDigitsLEAux_eq_digits {b : Nat} (hb : 2 ≤ b) :
    ∀ fuel n, n ≤ fuel → natDigitsLEAux b fuel n = Nat.digits b n := by
  intro fuel
  induction fuel with
  | zero =>
    intro n hn
    interval_cases n
    simp [natDigitsLEAux]
  | succ k ih =>
    intro n hn
    match n with
    | 0 => simp [natDigitsLEAux]
    | m + 1 =>
      rw [natDigitsLEAux, Nat.digits_def' (by omega : 1 < b) (Nat.succ_pos m), ih]
      have : (m + 1) / b < m + 1 := Nat.div_lt_self (by omega) (by omega)
      omega

theorem natDigitsLE_eq_digits {b : Nat} (hb : 2 ≤ b) (n : Nat) :
    natDigitsLE b n = Nat.digits b n :=
  natDigitsLEAux_eq_digits hb n n (le_refl n)

theorem foldl_mul_add (c : Nat) :
    ∀ (l : List Nat) (a : Nat),
      l.foldl (fun x d => x * c + d) a = a * c ^ l.length + Nat.ofDigits c l.reverse := by
  intro l
  induction l with
  | nil => intro a; simp
  | cons d t ih =>
    intro a
    rw [List.foldl_cons, ih, List.reverse_cons, Nat.ofDigits_append]
    simp only [List.length_cons, List.length_reverse, Nat.ofDigits_singleton]
    ring

theorem bytesToNat_eq_ofDigits (l : List Nat) : bytesToNat l = Nat.ofDigits 256 l.reverse := by
  simpa using foldl_mul_add 256 l 0

theorem ofDigits_replicate_zero (c k : Nat) : Nat.ofDigits c (List.replicate k 0) = 0 := by
  induction k with
  | zero => simp
  | succ m ih => rw [List.replicate_succ, Nat.ofDigits_cons, ih]; simp

theorem mem_wordToBytesBE {x w : Nat} (hx : x ∈ wordToBytesBE w) : x < 256 := by
  simp [wordToBytesBE] at hx
  rcases hx with rfl | rfl | rfl | rfl <;> omega

theorem sha256_length (m : List Nat) : (sha256 m).length = 32 := by
  simp [sha256, wordToBytesBE]

theorem mem_sha256_lt (m : List Nat) : ∀ x ∈ sha256 m, x < 256 := by
  intro x hx
  simp only [sha256, List.mem_append] at hx
  rcases hx with ((((((h | h) | h) | h) | h) | h) | h) | h <;> exact mem_wordToBytesBE h

theorem ripemd160_length (m : List Nat) : (ripemd160 m).length = 20 := by
  simp [ripemd160, wordToBytesLE]

theorem hash160_length (b : List Nat) : (hash160 b).length = 20 :=
  ripemd160_length (sha256 b)

/-! ### Base-58 lemmas -/

theorem b58CharIndex_b58Char_fin : ∀ d : Fin 58, b58CharIndex (b58Char d.val) = d.val := by
  decide

theorem b58Char_ne_one_fin : ∀ d : Fin 58, d.val ≠ 0 → b58Char d.val ≠ '1' := by
  decide

theorem dropWhile_replicate {α : Type} (p : α → Bool) (a : α) (h : p a = true) (k : Nat) :
    List.dropWhile p (List.replicate k a) = [] := by
  induction k with
  | zero => simp
  | succ m ih => rw [List.replicate_succ, List.dropWhile_cons_of_pos h, ih]

theorem dropWhile_replicate_append_cons {α : Type} (p : α → Bool) (a c : α) (cs : List α)
    (h : p a = true) (hc : p c = false) (k : Nat) :
    List.dropWhile p (List.replicate k a ++ c :: cs) = c :: cs := by
  induction k with
  | zero => simp [List.dropWhile_cons, hc]
  | succ m ih => rw [List.replicate_succ, List.cons_append, List.dropWhile_cons_of_pos h, ih]

theorem foldl_b58_map (ds : List Nat) (hds : ∀ d ∈ ds, d < 58) :
    ∀ a, (ds.map b58Char).foldl (fun x c => x * 58 + b58CharIndex c) a =
      ds.foldl (fun x d => x * 58 + d) a := by
  induction ds with
  | nil => intro a; simp
  | cons d t ih =>
    intro a
    rw [List.map_cons, List.foldl_cons, List.foldl_cons,
      b58CharIndex_b58Char_fin ⟨d, hds d (by simp)⟩]
    exact ih (fun x hx => hds x (by simp [hx])) _

theorem foldl_b58_val (l : List Nat) :
    l.foldl (fun x d => x * 58 + d) 0 = Nat.ofDigits 58 l.reverse := by
  simpa using foldl_mul_add 58 l 0

theorem getLast_reverse_cons {α : Type} (r : α) (rs : List α) (h : (r :: rs).reverse ≠ []) :
    ((r :: rs).reverse).getLast h = r := by
  have h1 : ((r :: rs).reverse).getLast? = some r := by
    rw [List.reverse_cons]
    simp
  have h2 := List.getLast?_eq_getLast _ h
  rw [h1] at h2
  exact (Option.some_inj.mp h2).symm

/-- Round trip of the modelled base-58 codec on genuine byte lists. -/
theorem b58decode_b58encode (b : List Nat) (hb : ∀ x ∈ b, x < 256) :
    b58decode (b58encode b) = b := by
  have ht : b.takeWhile (· = 0) = List.replicate (b.takeWhile (· = 0)).length 0 :=
    List.eq_replicate_of_mem (fun x hx => by simpa using List.mem_takeWhile_imp hx)
  have hsplit : b.takeWhile (· = 0) ++ b.dropWhile (· = 0) = b :=
    List.takeWhile_append_dropWhile _ b
  have hvalue : bytesToNat b = Nat.ofDigits 256 (b.dropWhile (· = 0)).reverse := by
    conv_lhs => rw [bytesToNat_eq_ofDigits, ← hsplit]
    rw [List.reverse_append, Nat.ofDigits_append, ht, List.reverse_replicate,
      ofDigits_replicate_zero, Nat.mul_zero, Nat.add_zero]
  rcases hdrop : b.dropWhile (· = 0) with _ | ⟨r, rs⟩
  · -- every byte of `b` is zero
    rw [hdrop, List.append_nil] at hsplit
    rw [hdrop] at hvalue
    simp only [List.reverse_nil, Nat.ofDigits_nil] at hvalue
    have henc : b58encode b = ⟨List.replicate (b.takeWhile (· = 0)).length '1'⟩ := by
      simp [b58encode, hvalue, natDigitsLE, natDigitsLEAux]
    rw [henc, b58decode]
    rw [dropWhile_replicate (fun x => decide (x = '1')) '1' (by decide)]
    simp only [List.length_replicate, List.length_nil, Nat.sub_zero, List.foldl_nil,
      natDigitsLE, natDigitsLEAux, List.reverse_nil, List.append_nil]
    exact ht.symm.trans hsplit
  · -- leading zeros, then a byte `r ≠ 0`
    have hne : b.dropWhile (· = 0) ≠ [] := by rw [hdrop]; exact List.cons_ne_nil _ _
    have hr : r ≠ 0 := by
      have h2 := List.head_dropWhile_not (fun x => decide (x = 0)) b hne
      simp only [hdrop, List.head_cons] at h2
      simpa using h2
    rw [hdrop] at hvalue
    have hpow : 0 < 256 ^ rs.reverse.length * r :=
      Nat.mul_pos (Nat.pos_pow_of_pos _ (by norm_num)) (Nat.pos_of_ne_zero hr)
    have hnpos : bytesToNat b ≠ 0 := by
      rw [hvalue, List.reverse_cons, Nat.ofDigits_append, Nat.ofDigits_singleton]
      omega
    have hDne : Nat.digits 58 (bytesToNat b) ≠ [] := Nat.digits_ne_nil_iff_ne_zero.mpr hnpos
    obtain ⟨c, cs, hDR⟩ := List.exists_cons_of_ne_nil
      (by simpa using hDne : (Nat.digits 58 (bytesToNat b)).reverse ≠ [])
    have hDrev : Nat.digits 58 (bytesToNat b) = (c :: cs).reverse := by
      rw [← hDR, List.reverse_reverse]
    have hmemD : ∀ d ∈ Nat.digits 58 (bytesToNat b), d < 58 := fun d hd =>
      Nat.digits_lt_base (by norm_num) hd
    have hc_eq : c = (Nat.digits 58 (bytesToNat b)).getLast hDne := by
      have h1 := List.getLast?_eq_getLast (Nat.digits 58 (bytesToNat b)) hDne
      have h2 : (Nat.digits 58 (bytesToNat b)).getLast? = some c := by
        rw [hDrev, List.reverse_cons]
        simp
      rw [h2] at h1
      exact Option.some_inj.mp h1
    have hc_ne : c ≠ 0 := by
      rw [hc_eq]
      exact Nat.getLast_digit_ne_zero 58 hnpos
    have hc_lt : c < 58 := hmemD c (by rw [hDrev]; simp)
    have hcs_lt : ∀ d ∈ c :: cs, d < 58 := by
      intro d hd
      exact hmemD d (by rw [hDrev]; simpa using List.mem_reverse.mpr hd)
    have henc : b58encode b =
        ⟨List.replicate (b.takeWhile (· = 0)).length '1' ++
          (b58Char c :: cs.map b58Char)⟩ := by
      simp only [b58encode, natDigitsLE_eq_digits (by norm_num : (2:Nat) ≤ 58), hDR,
        List.map_cons]
    rw [henc, b58decode]
    have hchar : (fun x => decide (x = '1')) (b58Char c) = false := by
      simpa using b58Char_ne_one_fin ⟨c, hc_lt⟩ hc_ne
    rw [dropWhile_replicate_append_cons (fun x => decide (x = '1')) '1' (b58Char c)
      (cs.map b58Char) (by decide) hchar]
    have hlen : (List.replicate (b.takeWhile (· = 0)).length '1' ++
        (b58Char c :: cs.map b58Char)).length - (b58Char c :: cs.map b58Char).length =
        (b.takeWhile (· = 0)).length := by
      simp
    rw [hlen]
    have hacc : (b58Char c :: cs.map b58Char).foldl (fun a ch => a * 58 + b58CharIndex ch) 0 =
        bytesToNat b := by
      rw [← List.map_cons, foldl_b58_map _ hcs_lt, foldl_b58_val, ← hDrev,
        Nat.ofDigits_digits]
    rw [hacc]
    have hdig : natDigitsLE 256 (bytesToNat b) = (r :: rs).reverse := by
      rw [natDigitsLE_eq_digits (by norm_num), hvalue]
      refine Nat.digits_ofDigits 256 (by norm_num) _ ?_ ?_
      · intro l hl
        refine hb l ?_
        have hmem : l ∈ r :: rs := List.mem_reverse.mp hl
        rw [← hdrop] at hmem
        exact (List.dropWhile_sublist _).subset hmem
      · intro hne2
        rw [getLast_reverse_cons]
        exact hr
    rw [hdig, List.reverse_reverse]
    conv_rhs => rw [← hsplit, hdrop]
    rw [← ht]

/-! ### Concrete test vector: the secp256k1 generator point -/

/-- The compressed pubkey `02 ‖ 79be…1798` of the spec's known-vector scenario. -/
def gPubkeyCompressed : List Nat :=
  [0x02,
   0x79, 0xbe, 0x66, 0x7e, 0xf9, 0xdc, 0xbb, 0xac, 0x55, 0xa0, 0x62, 0x95, 0xce, 0x87, 0x0b, 0x07,
   0x02, 0x9b, 0xfc, 0xdb, 0x2d, 0xce, 0x28, 0xd9, 0x59, 0xf2, 0x81, 0x5b, 0x16, 0xf8, 0x17, 0x98]

/-- The matching 64-byte uncompressed pubkey (x ‖ y), y even. -/
def gPubkeyUncompressed : List Nat :=
  [0x79, 0xbe, 0x66, 0x7e, 0xf9, 0xdc, 0xbb, 0xac, 0x55, 0xa0, 0x62, 0x95, 0xce, 0x87, 0x0b, 0x07,
   0x02, 0x9b, 0xfc, 0xdb, 0x2d, 0xce, 0x28, 0xd9, 0x59, 0xf2, 0x81, 0x5b, 0x16, 0xf8, 0x17, 0x98,
   0x48, 0x3a, 0xda, 0x77, 0x26, 0xa3, 0xc4, 0x65, 0x5d, 0xa4, 0xfb, 0xfc, 0x0e, 0x11, 0x08, 0xa8,
   0xfd, 0x17, 0xb4, 0x48, 0xa6, 0x85, 0x54, 0x19, 0x9c, 0x47, 0xd0, 0x8f, 0xfb, 0x10, 0xd4, 0xb8]

/-! ### The claims -/

/-- C1: with network `"testnet"`, both segwit builders fall through to the
`else` (error) branch — for every bech32 encoder and every input they
return the error prompt, never a bech32 address with human-readable part
`tb`, because the `elif`/`else` pair is attached only to the
regtest/mainnet check. -/
theorem c1_segwit_testnet_falls_to_error :
    ∀ (enc : String → Int → List Nat → String) (c s : List Nat),
      pk_to_p2wpkh enc c "testnet" = "Enter the network: testnet/regtest/mainnet" ∧
      script_to_p2wsh enc s "testnet" = "Enter the network: testnet/regtest/mainnet" := by
  intro enc c s
  exact ⟨rfl, rfl⟩

/-- C2: a network that is none of mainnet/testnet/regtest (e.g. `"signet"`)
sends every builder to its error branch: each returns its error prompt and
never an address built with any network's version byte or human-readable
part. -/
theorem c2_unknown_network_errors (network : String)
    (hm : network ≠ "mainnet") (ht : network ≠ "testnet") (hr : network ≠ "regtest") :
    ∀ (enc : String → Int → List Nat → String) (c s : List Nat),
      pk_to_p2pkh c network = "Enter the network: testnet/regtest/mainnet" ∧
      script_to_p2sh s network = "Enter the network: tesnet/regtest/mainnet" ∧
      pk_to_p2wpkh enc c network = "Enter the network: testnet/regtest/mainnet" ∧
      script_to_p2wsh enc s network = "Enter the network: testnet/regtest/mainnet" ∧
      pk_to_p2sh_p2wpkh c network = "Enter the network: tesnet/regtest/mainnet" := by
  intro enc c s
  refine ⟨?_, ?_, ?_, ?_, ?_⟩ <;>
    simp [pk_to_p2pkh, script_to_p2sh, pk_to_p2wpkh, script_to_p2wsh, pk_to_p2sh_p2wpkh,
      hm, ht, hr]

/-- Witness for C2 at the concrete network `"signet"`. -/
theorem c2_unknown_network_errors_witness :
    pk_to_p2pkh [] "signet" = "Enter the network: testnet/regtest/mainnet" :=
  (c2_unknown_network_errors "signet" (by decide) (by decide) (by decide)
    (fun _ _ _ => "") [] []).1

/-- C3: whenever a segwit builder reaches the bech32 encoding step, the
witness version it passes to the encoder is `0`: the rule
`spk[0] - 0x50 if spk[0] else 0` always yields 0 because the constructed
program prefix byte is the literal `0x00` at both call sites. -/
theorem c3_witness_version_always_zero :
    ∀ (enc : String → Int → List Nat → String) (c s : List Nat) (network : String),
      (pk_to_p2wpkh enc c network = "Enter the network: testnet/regtest/mainnet" ∨
        ∃ hrp, pk_to_p2wpkh enc c network = enc hrp 0 (hash160 c)) ∧
      (script_to_p2wsh enc s network = "Enter the network: testnet/regtest/mainnet" ∨
        ∃ hrp, script_to_p2wsh enc s network = enc hrp 0 (sha256 s)) := by
  intro enc c s network
  constructor
  · by_cases h1 : network = "regtest"
    · subst h1; exact Or.inr ⟨"bcrt", rfl⟩
    · by_cases h2 : network = "mainnet"
      · subst h2; exact Or.inr ⟨"bc", rfl⟩
      · exact Or.inl (by simp [pk_to_p2wpkh, h1, h2])
  · by_cases h1 : network = "regtest"
    · subst h1; exact Or.inr ⟨"bcrt", rfl⟩
    · by_cases h2 : network = "mainnet"
      · subst h2; exact Or.inr ⟨"bc", rfl⟩
      · exact Or.inl (by simp [script_to_p2wsh, h1, h2])

/-- C4: the nested-segwit builder wraps the witness-program bytes
`0x00 0x14 ‖ hash160(pk)` exactly as `script_to_p2sh` does, on every
network on which both succeed. -/
theorem c4_nested_segwit_wraps_as_p2sh (c : List Nat) (network : String)
    (h : network = "mainnet" ∨ network = "testnet" ∨ network = "regtest") :
    pk_to_p2sh_p2wpkh c network = script_to_p2sh (0x00 :: 0x14 :: hash160 c) network := by
  rcases h with rfl | rfl | rfl <;> rfl

/-- Witness for C4 at mainnet on a concrete pubkey. -/
theorem c4_nested_segwit_wraps_as_p2sh_witness :
    pk_to_p2sh_p2wpkh gPubkeyCompressed "mainnet" =
      script_to_p2sh (0x00 :: 0x14 :: hash160 gPubkeyCompressed) "mainnet" :=
  c4_nested_segwit_wraps_as_p2sh gPubkeyCompressed "mainnet" (Or.inl rfl)

/-- C5: decoding the checksummed encoding returns the payload with the
4-byte double-SHA-256 checksum still appended — decode neither strips nor
verifies it. -/
theorem c5_decode_encode_keeps_checksum (p : List Nat) (hp : ∀ x ∈ p, x < 256) :
    decode_base58 (encode_base58_checksum p) = p ++ (hash256 p).take 4 := by
  rw [decode_base58, encode_base58_checksum]
  refine b58decode_b58encode _ ?_
  intro x hx
  rcases List.mem_append.mp hx with h | h
  · exact hp x h
  · exact mem_sha256_lt (sha256 p) x (by simpa [hash256] using List.mem_of_mem_take h)

/-- Witness for C5 on a concrete payload with a leading zero byte. -/
theorem c5_decode_encode_keeps_checksum_witness :
    decode_base58 (encode_base58_checksum [0, 255]) = [0, 255] ++ (hash256 [0, 255]).take 4 :=
  c5_decode_encode_keeps_checksum [0, 255] (by decide)

/-- C6: on a 64-byte uncompressed key the compression step returns 33
bytes: parity prefix `0x02` for even big-endian y, `0x03` for odd, and the
remaining 32 bytes are the x-coordinate (the input's first 32 bytes). -/
theorem c6_compress_shape (u : List Nat) (hu : u.length = 64) :
    (compressPubkey u).length = 33 ∧
    (compressPubkey u).tail = u.take 32 ∧
    (bytesToNat (u.drop 32) % 2 = 0 → (compressPubkey u).headI = 0x02) ∧
    (bytesToNat (u.drop 32) % 2 = 1 → (compressPubkey u).headI = 0x03) := by
  have hxlen : (u.take 32).length = 32 := by
    rw [List.length_take, hu]
    omega
  have hylen : (u.drop 32).length = 32 := by
    rw [List.length_drop, hu]
  have hsub : ∀ m : Nat, (((m : Int) - 2 ^ (8 * 32)) % 2 = 0 ↔ m % 2 = 0) := by
    intro m
    have h2 : (2 : Int) ^ (8 * 32) = 2 * 2 ^ 255 := by norm_num
    omega
  have hcond : intFromBytesBESigned (u.drop 32) % 2 = 0 ↔ bytesToNat (u.drop 32) % 2 = 0 := by
    rw [intFromBytesBESigned, hylen]
    split
    · exact hsub _
    · omega
  refine ⟨?_, ?_, ?_, ?_⟩
  · simp only [compressPubkey]
    split <;> simp [hxlen]
  · simp only [compressPubkey]
    split <;> rfl
  · intro hpar
    simp only [compressPubkey]
    rw [if_pos (hcond.mpr hpar)]
    rfl
  · intro hpar
    have hne : ¬ intFromBytesBESigned (u.drop 32) % 2 = 0 := by
      rw [hcond]
      omega
    simp only [compressPubkey]
    rw [if_neg hne]
    rfl

/-- Witness for C6 on the generator point's uncompressed key (even y). -/
theorem c6_compress_shape_witness :
    (compressPubkey gPubkeyUncompressed).length = 33 ∧
    (compressPubkey gPubkeyUncompressed).tail = gPubkeyUncompressed.take 32 :=
  ⟨(c6_compress_shape gPubkeyUncompressed (by decide)).1,
   (c6_compress_shape gPubkeyUncompressed (by decide)).2.1⟩

/-- C7: `script_to_p2wsh` passes a single-SHA-256, 32-byte program to the
encoder, while `pk_to_p2wpkh` passes a SHA-256-then-RIPEMD-160, 20-byte
program: different hash algorithms and different program lengths on the
same network. -/
theorem c7_hash_pipelines_differ :
    ∀ (enc : String → Int → List Nat → String) (s c : List Nat),
      script_to_p2wsh enc s "mainnet" = enc "bc" 0 (sha256 s) ∧
      pk_to_p2wpkh enc c "mainnet" = enc "bc" 0 (ripemd160 (sha256 c)) ∧
      script_to_p2wsh enc s "regtest" = enc "bcrt" 0 (sha256 s) ∧
      pk_to_p2wpkh enc c "regtest" = enc "bcrt" 0 (ripemd160 (sha256 c)) ∧
      (sha256 s).length = 32 ∧ (hash160 c).length = 20 := by
  intro enc s c
  exact ⟨rfl, rfl, rfl, rfl, sha256_length s, hash160_length c⟩

/-- C8: the checksummed encoder equals base-58 encoding of the payload
followed by the first 4 bytes of its double SHA-256. -/
theorem c8_encode_base58_checksum_spec :
    ∀ b : List Nat,
      encode_base58_checksum b = b58encode (b ++ (sha256 (sha256 b)).take 4) ∧
      ((sha256 (sha256 b)).take 4).length = 4 := by
  intro b
  refine ⟨rfl, ?_⟩
  rw [List.length_take, sha256_length]
  omega

set_option maxRecDepth 100000 in
/-- C9: the spec's known vector — the generator-point compressed pubkey on
mainnet yields exactly this Base58Check address. -/
theorem c9_known_vector :
    pk_to_p2pkh gPubkeyCompressed "mainnet" = "1BgGZ9tcN4rm9KBzDn7KprQz87SZ26SAMH" := by
  decide

/-- C10: every builder's failure path returns a plain prompt string as the
ordinary `String` return value (same type as a successful address), with
the misspelling "tesnet" in the p2sh-family builders; no exception is
raised. -/
theorem c10_error_prompt_plain_strings :
    (∀ network : String, network ≠ "mainnet" → network ≠ "testnet" → network ≠ "regtest" →
      ∀ c s : List Nat,
        pk_to_p2pkh c network = "Enter the network: testnet/regtest/mainnet" ∧
        script_to_p2sh s network = "Enter the network: tesnet/regtest/mainnet" ∧
        pk_to_p2sh_p2wpkh c network = "Enter the network: tesnet/regtest/mainnet") ∧
    (∀ network : String, network ≠ "mainnet" → network ≠ "regtest" →
      ∀ (enc : String → Int → List Nat → String) (c s : List Nat),
        pk_to_p2wpkh enc c network = "Enter the network: testnet/regtest/mainnet" ∧
        script_to_p2wsh enc s network = "Enter the network: testnet/regtest/mainnet") := by
  constructor
  · intro network hm ht hr c s
    refine ⟨?_, ?_, ?_⟩ <;>
      simp [pk_to_p2pkh, script_to_p2sh, pk_to_p2sh_p2wpkh, hm, ht, hr]
  · intro network hm hr enc c s
    refine ⟨?_, ?_⟩ <;> simp [pk_to_p2wpkh, script_to_p2wsh, hm, hr]

/-- Witness for C10: `"signet"` on the p2sh family (misspelled prompt) and
`"testnet"` on a segwit builder (failure path reached on testnet too). -/
theorem c10_error_prompt_plain_strings_witness :
    script_to_p2sh [] "signet" = "Enter the network: tesnet/regtest/mainnet" ∧
    pk_to_p2wpkh (fun _ _ _ => "") [] "testnet" =
      "Enter the network: testnet/regtest/mainnet" :=
  ⟨(c10_error_prompt_plain_strings.1 "signet" (by decide) (by decide) (by decide) [] []).2.1,
   (c10_error_prompt_plain_strings.2 "testnet" (by decide) (by decide)
     (fun _ _ _ => "") [] []).1⟩
